import Mathlib

/-!
Verification development for the static-site index generator of the
`strategists-transcripts` repository.  The repository contains two variants of
the same pipeline, `build_indexes.py` and `makeindex.py`; both scan a
directory of rendered episode documents, recover metadata with regex
extractors, sort the records into a catalog, paginate the catalog into
listing pages and emit a sitemap.

Strings are modelled as `List Char` (the logical content of Python `str`).
Python library collaborators that are not part of the repository
(`datetime.fromisoformat(...).timestamp()`, `html.unescape`,
`datetime.strftime` / `date.isoformat`, file modification times) are passed
in as explicit function parameters, so every theorem quantifies over their
behaviour; the repository's own string processing (regex searches, `strip`,
`split`, `replace`, slicing, sorting, pagination, sitemap assembly) is
modelled concretely from the source.
-/

namespace Strategists

/-- Model of the logical content of a Python `str`. -/
abbrev Str := List Char

/-- Whitespace test used by Python `str.strip` and the regex class `\s`
(modelled on the ASCII whitespace characters). -/
def isWS (c : Char) : Bool :=
  c = ' ' || c = '\t' || c = '\n' || c = '\r' || c = '\x0b' || c = '\x0c'

/-- Case-insensitive character comparison, for regexes compiled with `re.I`. -/
def ciEq (a b : Char) : Bool := a.toLower == b.toLower

/-- Case-insensitive "text starts with pattern" test. -/
def startsWithCI : Str → Str → Bool
  | [], _ => true
  | _ :: _, [] => false
  | p :: ps, t :: ts => ciEq p t && startsWithCI ps ts

/-- Match a literal pattern case-insensitively at the head of the text,
returning the remaining text on success. -/
def matchLitCI (pat t : Str) : Option Str :=
  if startsWithCI pat t then some (t.drop pat.length) else none

/-- Text following the first (leftmost) case-insensitive occurrence of a
literal pattern, if any. -/
def splitFirstCI (pat : Str) : Str → Option Str
  | [] => matchLitCI pat []
  | c :: rest =>
    match matchLitCI pat (c :: rest) with
    | some r => some r
    | none => splitFirstCI pat rest

/-- Text strictly before the first case-insensitive occurrence of a literal
pattern; `none` when the pattern does not occur.  This is the semantics of a
non-greedy `(.*?)` group followed by the literal pattern (under `re.S`). -/
def groupBeforeCI (pat : Str) : Str → Option Str
  | [] => if startsWithCI pat [] then some [] else none
  | c :: rest =>
    if startsWithCI pat (c :: rest) then some []
    else (groupBeforeCI pat rest).map (c :: ·)

/-- Leftmost-match driver of `re.search`: try an anchored matcher at every
start position, left to right. -/
def searchFirst (m : Str → Option Str) : Str → Option Str
  | [] => m []
  | c :: rest =>
    match m (c :: rest) with
    | some g => some g
    | none => searchFirst m rest

/-- Group of the first match of `TITLE_RE = <title>(.*?)</title>` (`re.I|re.S`)
from `build_indexes.py`. -/
def searchTitle (doc : Str) : Option Str :=
  match splitFirstCI "<title>".data doc with
  | none => none
  | some rest => groupBeforeCI "</title>".data rest

/-- Anchored matcher for `DATE_RE = "datePublished"\s*:\s*"([^"]+)"` (`re.I`)
from `build_indexes.py`. -/
def matchDateAt (t : Str) : Option Str :=
  match matchLitCI "\"datePublished\"".data t with
  | none => none
  | some t1 =>
    match t1.dropWhile isWS with
    | ':' :: t3 =>
      match t3.dropWhile isWS with
      | '"' :: t5 =>
        let g := t5.takeWhile (fun c => c ≠ '"')
        match t5.drop g.length with
        | '"' :: _ => if g.isEmpty then none else some g
        | _ => none
      | _ => none
    | _ => none

/-- Group of the first `DATE_RE` match. -/
def searchDate (doc : Str) : Option Str := searchFirst matchDateAt doc

/-- Anchored matcher for
`DESC_RE = <meta property="og:description" content="([^"]+)"` (`re.I`)
from `build_indexes.py`. -/
def matchDescAt (t : Str) : Option Str :=
  match matchLitCI "<meta property=\"og:description\" content=\"".data t with
  | none => none
  | some t1 =>
    let g := t1.takeWhile (fun c => c ≠ '"')
    match t1.drop g.length with
    | '"' :: _ => if g.isEmpty then none else some g
    | _ => none

/-- Group of the first `DESC_RE` match. -/
def searchDesc (doc : Str) : Option Str := searchFirst matchDescAt doc

/-- Anchored matcher for `EP_NUM_RE = "episodeNumber"\s*:\s*(\d+)` (`re.I`)
from `build_indexes.py`. -/
def matchEpnumAt (t : Str) : Option Str :=
  match matchLitCI "\"episodeNumber\"".data t with
  | none => none
  | some t1 =>
    match t1.dropWhile isWS with
    | ':' :: t3 =>
      let g := (t3.dropWhile isWS).takeWhile Char.isDigit
      if g.isEmpty then none else some g
    | _ => none

/-- Group of the first `EP_NUM_RE` match. -/
def searchEpnum (doc : Str) : Option Str := searchFirst matchEpnumAt doc

/-- Test for `PATREON_RE = /assets/patreon\.jpg` (`re.I`) from
`build_indexes.py`. -/
def hasPatreonMarker (doc : Str) : Bool :=
  (splitFirstCI "/assets/patreon.jpg".data doc).isSome

/-- Python `str.strip()` (whitespace trim on both ends). -/
def pyStrip (s : Str) : Str :=
  ((s.dropWhile isWS).reverse.dropWhile isWS).reverse

/-- Python `str.rstrip()` (trailing-whitespace trim). -/
def pyRStrip (s : Str) : Str := (s.reverse.dropWhile isWS).reverse

/-- Python `s.split("|")[0]`: the text before the first `|` (the whole string
when there is none). -/
def beforeBar (s : Str) : Str := s.takeWhile (fun c => c ≠ '|')

/-- Python `published.replace("Z", "+00:00")` from `build_indexes.py`. -/
def replaceZ : Str → Str
  | [] => []
  | c :: rest => if c = 'Z' then "+00:00".data ++ replaceZ rest else c :: replaceZ rest

/-- Metadata record returned by `extract_meta` in `build_indexes.py`. -/
structure Meta where
  title : Str
  published : Str
  ts : Int
  description : Str
  episodeNumber : Str
deriving DecidableEq

/-- Model of `extract_meta` from `build_indexes.py`.  The parameter
`parseTs` stands for `datetime.fromisoformat(·).timestamp()`, with `none`
for a raised exception (the code swallows the exception and uses `0`). -/
def extract_meta (parseTs : Str → Option Int) (doc : Str) : Meta :=
  { title :=
      match searchTitle doc with
      | some g => pyStrip (beforeBar g)
      | none => "Episode".data
    published := (searchDate doc).getD []
    ts := (parseTs (replaceZ ((searchDate doc).getD []))).getD 0
    description :=
      match searchDesc doc with
      | some g => pyStrip g
      | none => []
    episodeNumber := (searchEpnum doc).getD [] }

/-- One source document, as produced by the `EPISODES_DIR.glob("*.html")`
scan of `build_indexes.py`: the path stem and the file text. -/
structure SrcFile where
  stem : Str
  content : Str
deriving DecidableEq

/-- One episode dictionary built by `load_episodes` in `build_indexes.py`. -/
structure EpisodeB where
  title : Str
  published : Str
  ts : Int
  description : Str
  episodeNumber : Str
  url : Str
  access : Str
deriving DecidableEq

/-- Construction of one episode dictionary inside the `load_episodes` loop. -/
def mkEpisode (parseTs : Str → Option Int) (f : SrcFile) : EpisodeB :=
  let m := extract_meta parseTs f.content
  { title := m.title, published := m.published, ts := m.ts,
    description := m.description, episodeNumber := m.episodeNumber,
    url := '/' :: f.stem,
    access := if hasPatreonMarker f.content then "patreon".data else "public".data }

/-- Comparator of `episodes.sort(key=lambda e: e["ts"], reverse=True)`:
Python's sort is a stable sort, and with `reverse=True` an element stays
before a later one exactly when its key is greater than or equal. -/
def tsDescLe (a b : EpisodeB) : Bool := decide (b.ts ≤ a.ts)

/-- The catalog-construction step of `build_indexes.py` applied to an
already-extracted record sequence: the stable descending sort by timestamp. -/
def catalogOf (records : List EpisodeB) : List EpisodeB := records.mergeSort tsDescLe

/-- Model of `load_episodes` from `build_indexes.py`. -/
def load_episodes (parseTs : Str → Option Int) (files : List SrcFile) : List EpisodeB :=
  catalogOf (files.map (mkEpisode parseTs))

/-- `PER_PAGE` constant of `build_indexes.py`. -/
def PER_PAGE : Nat := 24

/-- Ceiling division, the value of `math.ceil(n / k)` for naturals. -/
def ceilDiv (n k : Nat) : Nat := (n + k - 1) / k

/-- The pagination of `main`: page `p` (1-based) holds
`episodes[(p-1)*k : p*k]`, and there are `ceil(N / k)` pages. -/
def paginate {α : Type} (l : List α) (k : Nat) : List (List α) :=
  (List.range (ceilDiv l.length k)).map (fun i => (l.drop (i * k)).take k)

/-- Page-numbered site path `/page/<p>/`. -/
def pagePath (p : Nat) : Str := "/page/".data ++ (Nat.repr p).data ++ "/".data

/-- The `prev_url` expression of both renderers: the root for page 2 and a
page-numbered path otherwise. -/
def prevURL (page : Nat) : Str := if page = 2 then "/".data else pagePath (page - 1)

/-- The `prev_link` value computed by `render_index_page` in
`build_indexes.py` (empty string when the link is omitted). -/
def prev_link (page : Nat) : Str :=
  if page > 1 then "<link rel=\"prev\" href=\"".data ++ prevURL page ++ "\">".data
  else []

/-- The `next_link` value computed by `render_index_page` in
`build_indexes.py` (empty string when the link is omitted). -/
def next_link (page totalPages : Nat) : Str :=
  if page < totalPages then
    "<link rel=\"next\" href=\"".data ++ pagePath (page + 1) ++ "\">".data
  else []

/-- The site base URL (`base` in `write_sitemap`, `ARCHIVE_URL` in
`makeindex.py`). -/
def BASE : Str := "https://episodes.thestrategists.ca".data

/-- Homepage `<loc>` of `write_sitemap` in `build_indexes.py`. -/
def homeLoc : Str := BASE ++ "/".data

/-- Paginated-index `<loc>` of `write_sitemap` in `build_indexes.py`. -/
def pageLoc (p : Nat) : Str := BASE ++ pagePath p

/-- The `/newest/` `<loc>` of `write_sitemap` in `build_indexes.py`. -/
def newestLoc : Str := BASE ++ "/newest/".data

/-- One `add_url` call into the `urls` dict of `write_sitemap`: a Python dict
keeps first-insertion order and re-inserting an existing key does not add an
entry. -/
def insertLoc (acc : List Str) (loc : Str) : List Str :=
  if loc ∈ acc then acc else acc ++ [loc]

/-- The sequence of `add_url` calls made by `write_sitemap` in
`build_indexes.py`: home, pages `2..totalPages`, one URL per episode, and the
`/newest/` redirect page. -/
def sitemapInput (episodes : List EpisodeB) (totalPages : Nat) : List Str :=
  [homeLoc] ++ (List.range' 2 (totalPages - 1)).map pageLoc
    ++ episodes.map (fun e => BASE ++ e.url) ++ [newestLoc]

/-- The `<loc>` values of the `<url>` entries written by `write_sitemap` in
`build_indexes.py`, in output order. -/
def write_sitemap_locs (episodes : List EpisodeB) (totalPages : Nat) : List Str :=
  (sitemapInput episodes totalPages).foldl insertLoc []

/-- Output path of listing page `p` in `build_indexes.py`. -/
def b_pageOutPath (p : Nat) : Str :=
  if p = 1 then "html/index.html".data
  else "html/page/".data ++ (Nat.repr p).data ++ "/index.html".data

/-- Model of `main` in `build_indexes.py`, projected onto its observable
effects: either a fatal `SystemExit` (non-zero exit, nothing written) or the
list of output paths written, in order (listing pages, `/newest/`, sitemap). -/
def build_main (parseTs : Str → Option Int) (files : List SrcFile) :
    Except Str (List Str) :=
  let episodes := load_episodes parseTs files
  if episodes.isEmpty then Except.error "No episodes found".data
  else
    let T := ceilDiv episodes.length PER_PAGE
    Except.ok ((List.range' 1 T).map b_pageOutPath
      ++ ["html/newest/index.html".data, "html/sitemap.xml".data])

/-- Fuel-driven worker for `tagSub`; every step consumes at least one input
character, so fuel equal to the input length is always sufficient (structural
recursion on the fuel keeps the function kernel-reducible). -/
def tagSubGo : Nat → Str → Str
  | 0, s => s
  | _, [] => []
  | fuel + 1, c :: rest =>
    if c = '<' then
      let run := rest.takeWhile (fun d => d ≠ '>')
      match rest.drop run.length with
      | '>' :: after =>
        if run.isEmpty then c :: tagSubGo fuel rest else tagSubGo fuel after
      | _ => c :: tagSubGo fuel rest
    else c :: tagSubGo fuel rest

/-- Model of `TAG_RE.sub("", ·)` with `TAG_RE = <[^>]+>` from `makeindex.py`:
remove every leftmost `<`-to-first-`>` span with at least one character in
between; a `<` that starts no such span is kept. -/
def tagSub (s : Str) : Str := tagSubGo s.length s

/-- Fuel-driven worker for `wsCollapse` (fuel equal to the input length is
always sufficient). -/
def wsCollapseGo : Nat → Str → Str
  | 0, s => s
  | _, [] => []
  | fuel + 1, c :: rest =>
    if isWS c then ' ' :: wsCollapseGo fuel (rest.dropWhile isWS)
    else c :: wsCollapseGo fuel rest

/-- Model of `re.sub(r"\s+", " ", ·)`: collapse every maximal whitespace run
to a single space. -/
def wsCollapse (s : Str) : Str := wsCollapseGo s.length s

/-- Anchored matcher for `H1_RE = <h1[^>]*>(.*?)</h1>` (`re.I|re.S`) from
`makeindex.py`. -/
def matchH1At (t : Str) : Option Str :=
  match matchLitCI "<h1".data t with
  | none => none
  | some t1 =>
    match t1.drop ((t1.takeWhile (fun d => d ≠ '>')).length) with
    | '>' :: after => groupBeforeCI "</h1>".data after
    | _ => none

/-- Group of the first `H1_RE` match. -/
def searchH1 (doc : Str) : Option Str := searchFirst matchH1At doc

/-- Model of `extract_h1_title` from `makeindex.py`; `unescape` stands for
the stdlib `html.unescape`. -/
def extract_h1_title (unescape : Str → Str) (text : Str) : Option Str :=
  (searchH1 text).map (fun g => unescape (pyStrip (tagSub g)))

/-- Character class `["\']` of `META_DESC_RE`. -/
def isQuote (c : Char) : Bool := c = '"' || c = '\''

/-- Backtracking driver for a greedy `[^>]+`: try the candidate lengths from
longest to shortest (at least one character), first success wins, exactly the
order in which Python's engine explores them. -/
def tryLens (f : Nat → Option Str) : Nat → Option Str
  | 0 => none
  | n + 1 =>
    match f (n + 1) with
    | some g => some g
    | none => tryLens f n

/-- Tail of `META_DESC_RE` after `name=["\']description["\']`:
`[^>]+content=["\'](.*?)["\']`. -/
def metaDescTail (t6 : Str) : Option Str :=
  tryLens (fun len2 =>
      match matchLitCI "content=".data (t6.drop len2) with
      | none => none
      | some t8 =>
        match t8 with
        | q :: t9 =>
          if isQuote q then
            let g := t9.takeWhile (fun c => !isQuote c)
            match t9.drop g.length with
            | q2 :: _ => if isQuote q2 then some g else none
            | [] => none
          else none
        | [] => none)
    (t6.takeWhile (fun d => d ≠ '>')).length

/-- Anchored matcher for
`META_DESC_RE = <meta[^>]+name=["\']description["\'][^>]+content=["\'](.*?)["\']`
(`re.I|re.S`) from `makeindex.py`. -/
def matchMetaDescAt (t : Str) : Option Str :=
  match matchLitCI "<meta".data t with
  | none => none
  | some t1 =>
    tryLens (fun len1 =>
        match matchLitCI "name=".data (t1.drop len1) with
        | none => none
        | some t3 =>
          match t3 with
          | q :: t4 =>
            if isQuote q then
              match matchLitCI "description".data t4 with
              | none => none
              | some t5 =>
                match t5 with
                | q2 :: t6 => if isQuote q2 then metaDescTail t6 else none
                | [] => none
            else none
          | [] => none)
      (t1.takeWhile (fun d => d ≠ '>')).length

/-- Group of the first `META_DESC_RE` match. -/
def searchMetaDesc (doc : Str) : Option Str := searchFirst matchMetaDescAt doc

/-- `MAX_LEN` constant of `extract_description` in `makeindex.py`. -/
def MAX_LEN : Nat := 300

/-- Highest index of the list satisfying the predicate. -/
def rfindGo (p : Char → Bool) : Str → Option Nat
  | [] => none
  | c :: rest =>
    match rfindGo p rest with
    | some j => some (j + 1)
    | none => if p c then some 0 else none

/-- Python `desc.rfind(".", 0, hi)`: the highest index below `hi` holding the
character, as an option instead of the `-1` sentinel. -/
def rfindIn (ch : Char) (s : Str) (hi : Nat) : Option Nat :=
  rfindGo (fun c => c = ch) (s.take hi)

/-- The length-limiting step of `extract_description` in `makeindex.py`. -/
def truncateDesc (desc : Str) : Str :=
  if desc.length > MAX_LEN then
    match rfindIn '.' desc MAX_LEN with
    | some cut =>
      if cut > 140 then desc.take (cut + 1)
      else pyRStrip (desc.take MAX_LEN) ++ "…".data
    | none => pyRStrip (desc.take MAX_LEN) ++ "…".data
  else desc

/-- Model of `extract_description` from `makeindex.py`. -/
def extract_description (unescape : Str → Str) (text : Str) : Option Str :=
  match searchMetaDesc text with
  | none => none
  | some g => some (truncateDesc (pyStrip (wsCollapse (tagSub (unescape g)))))

/-- One file of the `HTML_DIR.glob("*.html")` scan of `makeindex.py`: the
file name (`p.name`), text, and modification instant (`p.stat().st_mtime`). -/
structure MFile where
  name : Str
  content : Str
  mtime : Int
deriving DecidableEq

/-- One episode dictionary built by `main` in `makeindex.py`. -/
structure MEpisode where
  slug : Str
  title : Str
  description : Option Str
  published : Int
  publishedHuman : Str
deriving DecidableEq

/-- Python `Path.stem` under the `*.html` glob contract: the name minus its
`.html` suffix. -/
def htmlStem (n : Str) : Str := n.take (n.length - 5)

/-- One iteration of the scan loop in `main` of `makeindex.py`: skip
`index.html`, skip documents with no (or a falsy, empty) `h1` title,
otherwise build the episode dictionary.  `fmtDate` stands for
`datetime.strftime("%b %d, %Y")` on the file's modification instant. -/
def m_processFile (unescape : Str → Str) (fmtDate : Int → Str) (f : MFile) :
    Option MEpisode :=
  if f.name = "index.html".data then none
  else
    match extract_h1_title unescape f.content with
    | none => none
    | some title =>
      if title.isEmpty then none
      else some { slug := htmlStem f.name, title := title,
                  description := extract_description unescape f.content,
                  published := f.mtime, publishedHuman := fmtDate f.mtime }

/-- The records collected by the scan loop of `makeindex.py`, in scan order. -/
def m_scan (unescape : Str → Str) (fmtDate : Int → Str) (files : List MFile) :
    List MEpisode :=
  files.filterMap (m_processFile unescape fmtDate)

/-- Comparator of `episodes.sort(key=lambda e: e["published"], reverse=True)`
in `makeindex.py` (stable descending). -/
def mTsDescLe (a b : MEpisode) : Bool := decide (b.published ≤ a.published)

/-- The sorted catalog of `makeindex.py`. -/
def m_catalog (unescape : Str → Str) (fmtDate : Int → Str) (files : List MFile) :
    List MEpisode :=
  (m_scan unescape fmtDate files).mergeSort mTsDescLe

/-- `PER_PAGE` constant of `makeindex.py`. -/
def M_PER_PAGE : Nat := 50

/-- Episode sitemap `<loc>` of `makeindex.py`: `f"{ARCHIVE_URL}/{p.stem}.html"`. -/
def m_epLoc (slug : Str) : Str := BASE ++ "/".data ++ slug ++ ".html".data

/-- Listing-page sitemap `<loc>` of `makeindex.py`. -/
def m_pageLoc (p : Nat) : Str := if p = 1 then BASE ++ "/".data else BASE ++ pagePath p

/-- The `sitemap_urls` list of `makeindex.py` in output order: one
`(loc, lastmod)` entry per kept episode (scan order), then one per listing
page.  `isoDate` stands for `date.isoformat` of the episode's modification
instant and `today` for `datetime.utcnow().date().isoformat()`. -/
def m_sitemap_urls (unescape : Str → Str) (fmtDate : Int → Str)
    (isoDate : Int → Str) (today : Str) (files : List MFile) : List (Str × Str) :=
  (files.filterMap (fun f =>
      (m_processFile unescape fmtDate f).map
        (fun ep => (m_epLoc ep.slug, isoDate ep.published))))
    ++ (List.range' 1 (ceilDiv (m_catalog unescape fmtDate files).length M_PER_PAGE)).map
        (fun p => (m_pageLoc p, today))

/-- Output path of listing page `p` in `makeindex.py`. -/
def m_pageOutPath (p : Nat) : Str :=
  if p = 1 then "html/index.html".data
  else "html/page/".data ++ (Nat.repr p).data ++ "/index.html".data

/-- Model of `main` in `makeindex.py`, projected onto its observable effects:
the output paths written in order (listing pages, then the sitemap — written
unconditionally) and the sitemap entries.  The function is total: the code
has no fatal path and always exits zero. -/
def makeindex_main (unescape : Str → Str) (fmtDate : Int → Str)
    (isoDate : Int → Str) (today : Str) (files : List MFile) :
    List Str × List (Str × Str) :=
  let T := ceilDiv (m_catalog unescape fmtDate files).length M_PER_PAGE
  ((List.range' 1 T).map m_pageOutPath ++ ["html/sitemap.xml".data],
    m_sitemap_urls unescape fmtDate isoDate today files)

/-- The `rel="prev"` discovery link of `render_index_page` in `makeindex.py`
(empty string when omitted; the code emits `ARCHIVE_URL + prev_url`). -/
def m_relPrev (page : Nat) : Str :=
  if page > 1 then
    "<link rel=\"prev\" href=\"".data ++ (BASE ++ prevURL page) ++ "\">".data
  else []

/-- The `rel="next"` discovery link of `render_index_page` in `makeindex.py`
(empty string when omitted). -/
def m_relNext (page totalPages : Nat) : Str :=
  if page < totalPages then
    "<link rel=\"next\" href=\"".data ++ (BASE ++ pagePath (page + 1)) ++ "\">".data
  else []

/-- Modelled from the spec (§4.2, "ties broken by a fixed secondary key
(slug, ascending)"): lexicographic order on slugs, as a Bool-valued
less-or-equal. -/
def lexLe : Str → Str → Bool
  | [], _ => true
  | _ :: _, [] => false
  | a :: al, b :: bl => if a = b then lexLe al bl else decide (a < b)

/-- Modelled from the spec (§3): the slug of a record, recovered from its
derived URL (`url` is always `"/" + slug`). -/
def specSlug (e : EpisodeB) : Str := e.url.drop 1

/-- Modelled from the spec (§4.2): deduplication by slug where the
later-constructed record wins. -/
def specDedup : List EpisodeB → List EpisodeB
  | [] => []
  | x :: rest =>
    if rest.any (fun y => specSlug y = specSlug x) then specDedup rest
    else x :: specDedup rest

/-- Modelled from the spec (§4.2): sort key "descending `publishedTimestamp`,
ties broken by slug ascending". -/
def specLe (a b : EpisodeB) : Bool :=
  decide (b.ts < a.ts) || (decide (a.ts = b.ts) && lexLe (specSlug a) (specSlug b))

/-- Modelled from the spec (§4.2): the reference catalog construction —
deduplicate by slug (later record wins), then sort by timestamp descending
with ties broken by slug ascending. -/
def specCatalog (l : List EpisodeB) : List EpisodeB :=
  (specDedup l).mergeSort specLe

/-- Decimal digit string of a natural number: the reference form of
`Nat.toDigits 10`. -/
def decDigits (n : Nat) : List Char :=
  if n < 10 then [Nat.digitChar n]
  else decDigits (n / 10) ++ [Nat.digitChar (n % 10)]
termination_by n
decreasing_by
  exact Nat.div_lt_self (by omega) (by omega)

/-- Value of a decimal digit string, the left inverse used to show that
decimal printing is injective. -/
def digitsVal (s : List Char) : Nat :=
  s.foldl (fun a c => a * 10 + (c.toNat - 48)) 0

/-! ## Helper lemmas -/

theorem le_ceilDiv_mul (n k : Nat) (hk : 0 < k) : n ≤ ceilDiv n k * k := by
  unfold ceilDiv
  have h1 := Nat.div_add_mod (n + k - 1) k
  have h2 := Nat.mod_lt (n + k - 1) hk
  rw [Nat.mul_comm]
  generalize k * ((n + k - 1) / k) = m at h1 ⊢
  omega

theorem ceilDiv_pred_mul_lt (n k : Nat) (hn : 0 < n) (hk : 0 < k) :
    (ceilDiv n k - 1) * k < n := by
  unfold ceilDiv
  have he : n + k - 1 = (n - 1) + k := by omega
  rw [he, Nat.add_div_right _ hk, Nat.add_sub_cancel]
  have h := Nat.div_mul_le_self (n - 1) k
  generalize (n - 1) / k * k = m at h ⊢
  omega

theorem join_chunks {α : Type} :
    ∀ (T : Nat) (l : List α) (k : Nat), 0 < k → l.length ≤ T * k →
      ((List.range T).map (fun i => (l.drop (i * k)).take k)).flatten = l := by
  intro T
  induction T with
  | zero =>
    intro l k _ hlen
    simp at hlen
    simp [hlen]
  | succ T ih =>
    intro l k hk hlen
    rw [List.range_succ_eq_map]
    simp only [List.map_cons, List.flatten_cons, List.map_map]
    have hdrop : ∀ i : Nat, l.drop ((i + 1) * k) = (l.drop k).drop (i * k) := by
      intro i
      rw [List.drop_drop]
      congr 1
      ring
    have hrw :
        ((List.range T).map (fun i => (l.drop ((i + 1) * k)).take k)).flatten = l.drop k := by
      have : (fun i => (l.drop ((i + 1) * k)).take k)
           = (fun i => ((l.drop k).drop (i * k)).take k) := by
        funext i
        rw [hdrop]
      rw [this]
      apply ih
      · exact hk
      · rw [List.length_drop]
        have : l.length ≤ T * k + k := by
          calc l.length ≤ (T + 1) * k := hlen
          _ = T * k + k := by ring
        omega
    calc ((l.drop (0 * k)).take k)
          ++ ((List.range T).map (fun i => (l.drop ((Nat.succ i) * k)).take k)).flatten
        = l.take k
          ++ ((List.range T).map (fun i => (l.drop ((i + 1) * k)).take k)).flatten := by
          simp [Nat.succ_eq_add_one]
      _ = l.take k ++ l.drop k := by rw [hrw]
      _ = l := List.take_append_drop k l

/-- C1: for every catalog of `N` records and every positive `pageSize` `k`,
the pagination step of `main` produces `ceil(N/k)` pages whose concatenation
in page order reproduces the catalog exactly, and every page except possibly
the last holds exactly `k` records. -/
theorem c1_paginator {α : Type} (l : List α) (k : Nat) (hk : 0 < k) :
    (paginate l k).length = ceilDiv l.length k
    ∧ (paginate l k).flatten = l
    ∧ ∀ i (hi : i + 1 < (paginate l k).length),
        ((paginate l k).get ⟨i, Nat.lt_of_succ_lt hi⟩).length = k := by
  refine ⟨by simp [paginate], ?_, ?_⟩
  · exact join_chunks (ceilDiv l.length k) l k hk
      (le_ceilDiv_mul l.length k hk)
  · intro i hi
    have hT : i + 1 < ceilDiv l.length k := by simpa [paginate] using hi
    have hn : 0 < l.length := by
      by_contra h
      push_neg at h
      have h0 : l.length = 0 := by omega
      have : ceilDiv l.length k = 0 := by
        unfold ceilDiv
        rw [h0]
        exact Nat.div_eq_of_lt (by omega)
      omega
    have h2 : (i + 1) * k ≤ (ceilDiv l.length k - 1) * k :=
      Nat.mul_le_mul_right k (by omega)
    have h4 : (i + 1) * k < l.length :=
      lt_of_le_of_lt h2 (ceilDiv_pred_mul_lt l.length k hn hk)
    rw [Nat.succ_mul] at h4
    simp only [paginate, List.get_map, List.get_range, List.length_take,
      List.length_drop]
    generalize i * k = A at h4 ⊢
    omega

/-- Witness for C1 at the concrete catalog `[10, 20, 30]` with page size 2. -/
theorem c1_paginator_witness :
    (paginate [10, 20, 30] 2).length = ceilDiv ([10, 20, 30] : List Nat).length 2
    ∧ (paginate [10, 20, 30] 2).flatten = [10, 20, 30]
    ∧ ∀ i (hi : i + 1 < (paginate [10, 20, 30] 2).length),
        ((paginate [10, 20, 30] 2).get ⟨i, Nat.lt_of_succ_lt hi⟩).length = 2 :=
  c1_paginator [10, 20, 30] 2 (by decide)

theorem toDigitsCore_eq_decDigits :
    ∀ (fuel n : Nat) (ds : List Char), n < fuel →
      Nat.toDigitsCore 10 fuel n ds = decDigits n ++ ds := by
  intro fuel
  induction fuel with
  | zero => intro n ds h; omega
  | succ f ih =>
    intro n ds h
    by_cases h0 : n / 10 = 0
    · have hn : n < 10 := by omega
      rw [decDigits, if_pos hn]
      simp [Nat.toDigitsCore, h0, Nat.mod_eq_of_lt hn]
    · have hn : 10 ≤ n := by omega
      have hlt : n / 10 < f := by
        have := Nat.div_lt_self (show 0 < n by omega) (show 1 < 10 by omega)
        omega
      rw [decDigits, if_neg (by omega)]
      simp only [Nat.toDigitsCore, h0, if_false]
      rw [ih (n / 10) (Nat.digitChar (n % 10) :: ds) hlt]
      simp

theorem toDigits_eq_decDigits (n : Nat) : Nat.toDigits 10 n = decDigits n := by
  rw [Nat.toDigits, toDigitsCore_eq_decDigits (n + 1) n [] (by omega)]
  simp

theorem digitChar_val (d : Nat) (h : d < 10) : (Nat.digitChar d).toNat - 48 = d := by
  interval_cases d <;> rfl

theorem digitsVal_append_one (xs : List Char) (c : Char) :
    digitsVal (xs ++ [c]) = digitsVal xs * 10 + (c.toNat - 48) := by
  rw [digitsVal, digitsVal, List.foldl_append]
  rfl

theorem digitsVal_decDigits (n : Nat) : digitsVal (decDigits n) = n := by
  induction n using Nat.strong_induction_on with
  | _ n ih =>
    by_cases h : n < 10
    · rw [decDigits, if_pos h]
      show 0 * 10 + ((Nat.digitChar n).toNat - 48) = n
      rw [digitChar_val n h]
      omega
    · rw [decDigits, if_neg h]
      rw [digitsVal_append_one]
      rw [ih (n / 10) (Nat.div_lt_self (by omega) (by omega))]
      rw [digitChar_val (n % 10) (Nat.mod_lt n (by omega))]
      omega

theorem reprData_inj {m n : Nat} (h : (Nat.repr m).data = (Nat.repr n).data) :
    m = n := by
  have h2 : Nat.toDigits 10 m = Nat.toDigits 10 n := h
  rw [toDigits_eq_decDigits, toDigits_eq_decDigits] at h2
  have h3 := congrArg digitsVal h2
  rwa [digitsVal_decDigits, digitsVal_decDigits] at h3

theorem pagePath_inj {p q : Nat} (h : pagePath p = pagePath q) : p = q := by
  rw [pagePath, pagePath] at h
  have h1 : "/page/".data ++ (Nat.repr p).data
      = "/page/".data ++ (Nat.repr q).data := List.append_cancel_right h
  exact reprData_inj (List.append_cancel_left h1)

theorem foldl_insertLoc_nodup :
    ∀ (L acc : List Str), acc.Nodup → (L.foldl insertLoc acc).Nodup := by
  intro L
  induction L with
  | nil => intro acc h; exact h
  | cons x L ih =>
    intro acc h
    rw [List.foldl_cons]
    apply ih
    rw [insertLoc]
    split_ifs with hx
    · exact h
    · rw [List.nodup_append]
      refine ⟨h, List.nodup_singleton x, ?_⟩
      rw [List.disjoint_left]
      intro a ha hax
      simp at hax
      subst hax
      exact hx ha

theorem foldl_insertLoc_length :
    ∀ (L acc : List Str), L.Nodup → (∀ x ∈ L, x ∉ acc) →
      (L.foldl insertLoc acc).length = acc.length + L.length := by
  intro L
  induction L with
  | nil => intro acc _ _; simp
  | cons x L ih =>
    intro acc hnd hdis
    rw [List.foldl_cons, insertLoc, if_neg (hdis x (by simp))]
    rw [ih (acc ++ [x]) hnd.of_cons ?_]
    · simp
      omega
    · intro y hy
      rw [List.mem_append]
      rintro (hya | hyx)
      · exact hdis y (by simp [hy]) hya
      · simp at hyx
        subst hyx
        exact (List.nodup_cons.mp hnd).1 hy

theorem pageLoc_ne_homeLoc (p : Nat) : pageLoc p ≠ homeLoc := by
  intro h
  have h1 : pagePath p = "/".data := List.append_cancel_left h
  have h2 := congrArg List.length h1
  rw [pagePath, List.length_append, List.length_append] at h2
  have l6 : ("/page/".data : Str).length = 6 := rfl
  have l1 : ("/".data : Str).length = 1 := rfl
  rw [l6, l1] at h2
  omega

theorem pageLoc_ne_newestLoc (p : Nat) : pageLoc p ≠ newestLoc := by
  intro h
  have h1 : pagePath p = "/newest/".data := List.append_cancel_left h
  rw [pagePath, show ("/page/".data : Str) = '/' :: 'p' :: "age/".data from rfl,
    show ("/newest/".data : Str) = '/' :: 'n' :: "ewest/".data from rfl] at h1
  simp only [List.cons_append] at h1
  injection h1 with _ h2
  injection h2 with h3 _
  exact absurd h3 (by decide)

theorem pageLoc_ne_epLoc (p : Nat) (s : Str) (hs : '/' ∉ s) :
    pageLoc p ≠ BASE ++ ('/' :: s) := by
  intro h
  have h1 : pagePath p = '/' :: s := List.append_cancel_left h
  rw [pagePath,
    show ("/page/".data : Str) = '/' :: 'p' :: 'a' :: 'g' :: 'e' :: '/' :: [] from rfl] at h1
  simp only [List.cons_append, List.nil_append] at h1
  injection h1 with _ h2
  apply hs
  rw [← h2]
  simp

theorem homeLoc_ne_epLoc (s : Str) (hs : s ≠ []) : homeLoc ≠ BASE ++ ('/' :: s) := by
  intro h
  have h1 : "/".data = '/' :: s := List.append_cancel_left h
  rw [show ("/".data : Str) = '/' :: [] from rfl] at h1
  injection h1 with _ h2
  exact hs h2.symm

theorem newestLoc_ne_epLoc (s : Str) (hs : '/' ∉ s) :
    newestLoc ≠ BASE ++ ('/' :: s) := by
  intro h
  have h1 : "/newest/".data = '/' :: s := List.append_cancel_left h
  rw [show ("/newest/".data : Str) = '/' :: "newest/".data from rfl] at h1
  injection h1 with _ h2
  apply hs
  rw [← h2]
  decide

theorem homeLoc_ne_newestLoc : homeLoc ≠ newestLoc := by decide

theorem pageLoc_inj {p q : Nat} (h : pageLoc p = pageLoc q) : p = q :=
  pagePath_inj (List.append_cancel_left h)

theorem m_epLoc_getLast (s : Str) : (m_epLoc s).getLast? = some 'l' := by
  rw [m_epLoc]
  rw [List.getLast?_append]
  simp [show (".html".data : Str).getLast? = some 'l' from by decide]

theorem m_pageLoc_getLast (p : Nat) : (m_pageLoc p).getLast? = some '/' := by
  rw [m_pageLoc]
  split_ifs with h
  · rw [List.getLast?_append]
    simp [show ("/".data : Str).getLast? = some '/' from by decide]
  · rw [pagePath, List.getLast?_append, List.getLast?_append]
    simp [show ("/".data : Str).getLast? = some '/' from by decide]

theorem m_epLoc_ne_m_pageLoc (s : Str) (p : Nat) : m_epLoc s ≠ m_pageLoc p := by
  intro h
  have h1 := congrArg List.getLast? h
  rw [m_epLoc_getLast, m_pageLoc_getLast] at h1
  simp at h1

theorem m_epLoc_inj {s1 s2 : Str} (h : m_epLoc s1 = m_epLoc s2) : s1 = s2 := by
  rw [m_epLoc, m_epLoc] at h
  exact List.append_cancel_left (List.append_cancel_right h)

theorem htmlStem_inj_on {n1 n2 : Str}
    (h1 : n1.drop (n1.length - 5) = ".html".data)
    (h2 : n2.drop (n2.length - 5) = ".html".data)
    (h : htmlStem n1 = htmlStem n2) : n1 = n2 := by
  have e1 := List.take_append_drop (n1.length - 5) n1
  have e2 := List.take_append_drop (n2.length - 5) n2
  rw [h1] at e1
  rw [h2] at e2
  rw [htmlStem, htmlStem] at h
  rw [← e1, ← e2, h]

theorem m_processFile_slug {u : Str → Str} {fd : Int → Str} {f : MFile}
    {ep : MEpisode} (h : m_processFile u fd f = some ep) :
    ep.slug = htmlStem f.name := by
  by_cases hidx : f.name = "index.html".data
  · simp [m_processFile, hidx] at h
  · rw [m_processFile, if_neg hidx] at h
    cases hh : extract_h1_title u f.content with
    | none => rw [hh] at h; simp at h
    | some title =>
      rw [hh] at h
      by_cases hemp : title.isEmpty
      · simp [hemp] at h
      · simp only [hemp, Bool.false_eq_true, if_false, Option.some.injEq] at h
        rw [← h]

theorem length_filterMap_mapOpt {α β γ : Type} (l : List α) (p : α → Option β)
    (g : β → γ) :
    (l.filterMap (fun a => (p a).map g)).length = (l.filterMap p).length := by
  induction l with
  | nil => rfl
  | cons x l ih => cases h : p x <;> simp [List.filterMap_cons, h, ih]

theorem tsDescLe_trans : ∀ a b c : EpisodeB,
    tsDescLe a b → tsDescLe b c → tsDescLe a c := by
  intro a b c hab hbc
  simp [tsDescLe] at hab hbc ⊢
  omega

theorem tsDescLe_total : ∀ a b : EpisodeB, tsDescLe a b || tsDescLe b a := by
  intro a b
  simp [tsDescLe]
  omega

/-- C2 counterexample: on two equal-timestamp records with slugs `b`, `a`
(in that scan order) the code's catalog keeps scan order, while the spec's
reference construction (dedup then sort with slug-ascending tie-break) swaps
them; and two records sharing a slug both survive (no deduplication). -/
theorem c2_counterexample :
    catalogOf [⟨"t".data, [], 5, [], [], "/b".data, "public".data⟩,
               ⟨"t".data, [], 5, [], [], "/a".data, "public".data⟩]
      = [⟨"t".data, [], 5, [], [], "/b".data, "public".data⟩,
         ⟨"t".data, [], 5, [], [], "/a".data, "public".data⟩]
    ∧ catalogOf [⟨"t".data, [], 5, [], [], "/b".data, "public".data⟩,
                 ⟨"t".data, [], 5, [], [], "/a".data, "public".data⟩]
      ≠ specCatalog [⟨"t".data, [], 5, [], [], "/b".data, "public".data⟩,
                     ⟨"t".data, [], 5, [], [], "/a".data, "public".data⟩]
    ∧ catalogOf [⟨"t".data, [], 5, [], [], "/a".data, "public".data⟩,
                 ⟨"u".data, [], 3, [], [], "/a".data, "public".data⟩]
      = [⟨"t".data, [], 5, [], [], "/a".data, "public".data⟩,
         ⟨"u".data, [], 3, [], [], "/a".data, "public".data⟩] := by
  have h1 :
      catalogOf [⟨"t".data, [], 5, [], [], "/b".data, "public".data⟩,
                 ⟨"t".data, [], 5, [], [], "/a".data, "public".data⟩]
        = [⟨"t".data, [], 5, [], [], "/b".data, "public".data⟩,
           ⟨"t".data, [], 5, [], [], "/a".data, "public".data⟩] := by
    simp [catalogOf, tsDescLe, List.mergeSort, List.splitInTwo, List.splitAt,
      List.splitAt.go, List.merge]
  have h2 :
      specCatalog [⟨"t".data, [], 5, [], [], "/b".data, "public".data⟩,
                   ⟨"t".data, [], 5, [], [], "/a".data, "public".data⟩]
        = [⟨"t".data, [], 5, [], [], "/a".data, "public".data⟩,
           ⟨"t".data, [], 5, [], [], "/b".data, "public".data⟩] := by
    simp [specCatalog, specDedup, specSlug, specLe, lexLe, List.mergeSort,
      List.splitInTwo, List.splitAt, List.splitAt.go, List.merge]
  refine ⟨h1, ?_, ?_⟩
  · rw [h1, h2]
    decide
  · simp [catalogOf, tsDescLe, List.mergeSort, List.splitInTwo, List.splitAt,
      List.splitAt.go, List.merge]

/-- C2 amended: the constructed catalog is the stable descending sort of the
input record sequence by `publishedTimestamp`: a permutation of the input
(so no slug deduplication occurs), sorted by timestamp descending, with
equal-timestamp records kept in their original scan order rather than
reordered by slug. -/
theorem c2_amended (l : List EpisodeB) :
    (catalogOf l).Perm l
    ∧ (catalogOf l).Pairwise (fun a b => b.ts ≤ a.ts)
    ∧ ∀ t : Int,
        (catalogOf l).filter (fun e => decide (e.ts = t))
          = l.filter (fun e => decide (e.ts = t)) := by
  refine ⟨List.mergeSort_perm l tsDescLe, ?_, ?_⟩
  · have h := List.sorted_mergeSort tsDescLe_trans tsDescLe_total l
    exact h.imp (fun hab => by simpa [tsDescLe] using hab)
  · intro t
    set p : EpisodeB → Bool := fun e => decide (e.ts = t) with hp
    have hall : ∀ e ∈ l.filter p, p e := fun e he => List.of_mem_filter he
    have hpw : (l.filter p).Pairwise (fun a b => tsDescLe a b = true) := by
      apply List.pairwise_of_forall_mem_list
      intro a ha b hb
      have ha' := List.of_mem_filter ha
      have hb' := List.of_mem_filter hb
      simp [hp] at ha' hb'
      simp [tsDescLe, ha', hb']
    have hsub : (l.filter p).Sublist (catalogOf l) :=
      List.sublist_mergeSort tsDescLe_trans tsDescLe_total hpw (List.filter_sublist l)
    have hsub2 : (l.filter p).Sublist ((catalogOf l).filter p) := by
      have := hsub.filter p
      rwa [List.filter_filter, show (fun e => p e && p e) = p from by
        funext e; cases p e <;> rfl] at this
    have hlen : ((catalogOf l).filter p).length = (l.filter p).length :=
      ((List.mergeSort_perm l tsDescLe).filter p).length_eq
    exact (hsub2.eq_of_length hlen.symm).symm

/-- C4: a document whose date marker is absent or whose date string fails to
parse raises no error: its record carries `publishedTimestamp` 0 with the
raw date string preserved verbatim (empty when absent), and in the sorted
catalog a zero-timestamp record appears after every record with a positive
timestamp. -/
theorem c4_unparsable_date (parseTs : Str → Option Int) (doc : Str)
    (records : List EpisodeB)
    (hp : parseTs [] = none)
    (h : searchDate doc = none
       ∨ ∃ s, searchDate doc = some s ∧ parseTs (replaceZ s) = none) :
    (extract_meta parseTs doc).ts = 0
    ∧ (extract_meta parseTs doc).published = (searchDate doc).getD []
    ∧ ∀ i j (hi : i < (catalogOf records).length)
        (hj : j < (catalogOf records).length),
        ((catalogOf records).get ⟨i, hi⟩).ts = 0 →
        0 < ((catalogOf records).get ⟨j, hj⟩).ts → j < i := by
  refine ⟨?_, rfl, ?_⟩
  · rcases h with hnone | ⟨s, hsome, hbad⟩
    · simp [extract_meta, hnone, replaceZ, hp]
    · simp [extract_meta, hsome, hbad]
  · intro i j hi hj h0 hpos
    have hs := (List.sorted_mergeSort tsDescLe_trans tsDescLe_total records).imp
      (fun hab => by simpa [tsDescLe] using hab)
    rcases lt_trichotomy j i with hlt | heq | hgt
    · exact hlt
    · subst heq
      rw [h0] at hpos
      exact absurd hpos (by omega)
    · have h2 : ((catalogOf records).get ⟨j, hj⟩).ts
          ≤ ((catalogOf records).get ⟨i, hi⟩).ts :=
        List.pairwise_iff_get.mp hs ⟨i, hi⟩ ⟨j, hj⟩ hgt
      rw [h0] at h2
      exact absurd hpos (by omega)

/-- Witness for C4: the empty document with the (vacuously failing) parse
oracle and a two-record catalog. -/
theorem c4_unparsable_date_witness :
    (extract_meta (fun _ => none) []).ts = 0
    ∧ (extract_meta (fun _ => none) []).published = (searchDate []).getD []
    ∧ ∀ i j (hi : i < (catalogOf []).length) (hj : j < (catalogOf []).length),
        ((catalogOf ([] : List EpisodeB)).get ⟨i, hi⟩).ts = 0 →
        0 < ((catalogOf ([] : List EpisodeB)).get ⟨j, hj⟩).ts → j < i :=
  c4_unparsable_date (fun _ => none) [] [] rfl (Or.inl (by decide))

/-- C5 counterexample: in `makeindex.py`, a document whose `h1` is
`Ep 12 | The Strategists` yields that full text as the title — the site-name
suffix after the separator is not stripped, contradicting the claimed
`"Ep 12"`. -/
theorem c5_counterexample :
    extract_h1_title (fun s => s) "<h1>Ep 12 | The Strategists</h1>".data
      = some "Ep 12 | The Strategists".data
    ∧ extract_h1_title (fun s => s) "<h1>Ep 12 | The Strategists</h1>".data
      ≠ some "Ep 12".data := by
  constructor
  · decide
  · decide

/-- C5 amended: in `build_indexes.py` the title is the first `<title>` match
cut before the first `|` and trimmed, with fallback `"Episode"` (so the
example document yields `"Ep 12"`); in `makeindex.py` the title is the first
`<h1>` match with tags stripped, trimmed and unescaped — no suffix
stripping — and a document without an `h1` yields no title at all rather
than a placeholder. -/
theorem c5_amended (parseTs : Str → Option Int) (doc : Str) (u : Str → Str)
    (t : Str) :
    (extract_meta parseTs doc).title
      = ((searchTitle doc).map (fun g => pyStrip (beforeBar g))).getD "Episode".data
    ∧ extract_h1_title u t = (searchH1 t).map (fun g => u (pyStrip (tagSub g)))
    ∧ (extract_meta parseTs "<title>Ep 12 | The Strategists</title>".data).title
      = "Ep 12".data
    ∧ extract_h1_title (fun s => s) "<h1>Ep 12 | The Strategists</h1>".data
      = some "Ep 12 | The Strategists".data := by
  refine ⟨?_, rfl, ?_, by decide⟩
  · cases h : searchTitle doc <;> simp [extract_meta, h]
  · have h : searchTitle "<title>Ep 12 | The Strategists</title>".data
        = some "Ep 12 | The Strategists".data := by decide
    simp [extract_meta, h]
    decide

theorem sitemapInput_nodup (eps : List EpisodeB) (T : Nat)
    (hurl : ∀ e ∈ eps, ∃ s : Str, e.url = '/' :: s ∧ s ≠ [] ∧ '/' ∉ s)
    (hnd : (eps.map (fun e => e.url)).Nodup) :
    (sitemapInput eps T).Nodup := by
  rw [sitemapInput]
  rw [List.nodup_append]
  refine ⟨?_, List.nodup_singleton _, ?_⟩
  · rw [List.nodup_append]
    refine ⟨?_, ?_, ?_⟩
    · rw [List.nodup_append]
      refine ⟨List.nodup_singleton _, ?_, ?_⟩
      · exact List.Nodup.map_on
          (fun x _ y _ hxy => pageLoc_inj hxy) (List.nodup_range' _ _)
      · rw [List.disjoint_left]
        intro a ha hmem
        simp only [List.mem_singleton] at ha
        subst ha
        rw [List.mem_map] at hmem
        obtain ⟨p, _, hpe⟩ := hmem
        exact pageLoc_ne_homeLoc p hpe
    · rw [show eps.map (fun e => BASE ++ e.url)
          = (eps.map (fun e => e.url)).map (fun v => BASE ++ v) from by
        rw [List.map_map]
        rfl]
      exact hnd.map (fun a b hab => List.append_cancel_left hab)
    · rw [List.disjoint_left]
      intro a ha hmem
      rw [List.mem_map] at hmem
      obtain ⟨e, he, hea⟩ := hmem
      obtain ⟨s, hus, hsne, hsl⟩ := hurl e he
      rw [hus] at hea
      rw [List.mem_append] at ha
      rcases ha with h1 | h2
      · simp only [List.mem_singleton] at h1
        subst h1
        exact homeLoc_ne_epLoc s hsne hea.symm
      · rw [List.mem_map] at h2
        obtain ⟨p, _, hpe⟩ := h2
        rw [← hpe] at hea
        exact pageLoc_ne_epLoc p s hsl hea.symm
  · rw [List.disjoint_left]
    intro a ha hmem
    simp only [List.mem_singleton] at hmem
    subst hmem
    rw [List.mem_append] at ha
    rcases ha with ha | hE
    · rw [List.mem_append] at ha
      rcases ha with h1 | h2
      · simp only [List.mem_singleton] at h1
        exact homeLoc_ne_newestLoc h1.symm
      · rw [List.mem_map] at h2
        obtain ⟨p, _, hpe⟩ := h2
        exact pageLoc_ne_newestLoc p hpe
    · rw [List.mem_map] at hE
      obtain ⟨e, he, hea⟩ := hE
      obtain ⟨s, hus, hsne, hsl⟩ := hurl e he
      rw [hus] at hea
      exact newestLoc_ne_epLoc s hsl hea.symm

theorem m_locs_nodup (u : Str → Str) (fd : Int → Str) (iso : Int → Str)
    (today : Str) (mfiles : List MFile)
    (hnames : ∀ f ∈ mfiles, f.name.drop (f.name.length - 5) = ".html".data)
    (hmnd : (mfiles.map (fun f => f.name)).Nodup) :
    ((m_sitemap_urls u fd iso today mfiles).map Prod.fst).Nodup := by
  rw [m_sitemap_urls, List.map_append]
  rw [List.nodup_append]
  refine ⟨?_, ?_, ?_⟩
  · rw [List.map_filterMap]
    have heq : (fun f => ((m_processFile u fd f).map
          (fun ep => (m_epLoc ep.slug, iso ep.published))).map Prod.fst)
        = fun f => (m_processFile u fd f).map (fun ep => m_epLoc ep.slug) := by
      funext f
      cases m_processFile u fd f <;> rfl
    rw [heq]
    have h1 : mfiles.Pairwise (fun f g => f.name ≠ g.name) :=
      List.pairwise_map.mp hmnd
    have h2 : mfiles.Pairwise (fun f g =>
        f.name ≠ g.name
        ∧ f.name.drop (f.name.length - 5) = ".html".data
        ∧ g.name.drop (g.name.length - 5) = ".html".data) :=
      h1.imp_of_mem (fun hf hg hne => ⟨hne, hnames _ hf, hnames _ hg⟩)
    apply h2.filterMap
    intro f g hfg b hb b' hb'
    rw [Option.mem_def] at hb hb'
    cases hpf : m_processFile u fd f with
    | none => rw [hpf] at hb; simp at hb
    | some ep =>
      cases hpg : m_processFile u fd g with
      | none => rw [hpg] at hb'; simp at hb'
      | some ep' =>
        rw [hpf] at hb
        rw [hpg] at hb'
        simp at hb hb'
        subst hb
        subst hb'
        intro hloc
        have hs := m_epLoc_inj hloc
        rw [m_processFile_slug hpf, m_processFile_slug hpg] at hs
        exact hfg.1 (htmlStem_inj_on hfg.2.1 hfg.2.2 hs)
  · rw [List.map_map]
    have heq : (Prod.fst ∘ fun p => (m_pageLoc p, today))
        = fun p : Nat => m_pageLoc p := rfl
    rw [heq]
    apply List.Nodup.map_on ?_ (List.nodup_range' _ _)
    intro x hx y hy hxy
    rw [List.mem_range'] at hx hy
    have hx1 : 1 ≤ x := by omega
    have hy1 : 1 ≤ y := by omega
    by_cases hx2 : x = 1
    · by_cases hy2 : y = 1
      · omega
      · rw [m_pageLoc, m_pageLoc, if_pos hx2, if_neg hy2] at hxy
        exact absurd (show pageLoc y = homeLoc from hxy.symm) (pageLoc_ne_homeLoc y)
    · by_cases hy2 : y = 1
      · rw [m_pageLoc, m_pageLoc, if_neg hx2, if_pos hy2] at hxy
        exact absurd (show pageLoc x = homeLoc from hxy) (pageLoc_ne_homeLoc x)
      · rw [m_pageLoc, m_pageLoc, if_neg hx2, if_neg hy2] at hxy
        exact pageLoc_inj hxy
  · rw [List.disjoint_left]
    intro a ha hmem
    rw [List.map_filterMap] at ha
    rw [List.map_map, List.mem_map] at hmem
    obtain ⟨p, _, hpe⟩ := hmem
    rw [List.mem_filterMap] at ha
    obtain ⟨f, _, hfa⟩ := ha
    cases hpf : m_processFile u fd f with
    | none => rw [hpf] at hfa; simp at hfa
    | some ep =>
      rw [hpf] at hfa
      have h1 : m_epLoc ep.slug = a := by simpa using hfa
      have h2 : m_pageLoc p = a := by simpa using hpe
      exact m_epLoc_ne_m_pageLoc ep.slug p (h1.trans h2.symm)

/-- C6: for every rendered listing page `p` of `T` (1-based, `1 ≤ p ≤ T`),
in both renderers the previous-page link is absent exactly on page 1 and,
when present, targets the root for `p = 2` and the page-numbered path for
`p - 1` otherwise; the next-page link is absent exactly on the last page
and otherwise targets the page-numbered path for `p + 1`.  In particular a
one-page catalog's only page carries neither link. -/
theorem c6_nav_links (p T : Nat) (h1 : 1 ≤ p) (h2 : p ≤ T) :
    (prev_link p = [] ↔ p = 1)
    ∧ (next_link p T = [] ↔ p = T)
    ∧ (m_relPrev p = [] ↔ p = 1)
    ∧ (m_relNext p T = [] ↔ p = T)
    ∧ (1 < p → prev_link p
        = "<link rel=\"prev\" href=\"".data ++ prevURL p ++ "\">".data)
    ∧ prevURL 2 = "/".data
    ∧ (2 < p → prevURL p = pagePath (p - 1))
    ∧ (p < T → next_link p T
        = "<link rel=\"next\" href=\"".data ++ pagePath (p + 1) ++ "\">".data) := by
  have hpre : ("<link rel=\"prev\" href=\"".data : Str) ≠ [] := by decide
  have hnxt : ("<link rel=\"next\" href=\"".data : Str) ≠ [] := by decide
  have hprev : ∀ q : Nat, 1 < q → prev_link q ≠ [] := by
    intro q hq h
    rw [prev_link, if_pos hq] at h
    exact hpre (List.append_eq_nil.mp (List.append_eq_nil.mp h).1).1
  have hmprev : ∀ q : Nat, 1 < q → m_relPrev q ≠ [] := by
    intro q hq h
    rw [m_relPrev, if_pos hq] at h
    exact hpre (List.append_eq_nil.mp (List.append_eq_nil.mp h).1).1
  have hnext : ∀ q : Nat, q < T → next_link q T ≠ [] := by
    intro q hq h
    rw [next_link, if_pos hq] at h
    exact hnxt (List.append_eq_nil.mp (List.append_eq_nil.mp h).1).1
  have hmnext : ∀ q : Nat, q < T → m_relNext q T ≠ [] := by
    intro q hq h
    rw [m_relNext, if_pos hq] at h
    exact hnxt (List.append_eq_nil.mp (List.append_eq_nil.mp h).1).1
  refine ⟨?_, ?_, ?_, ?_, ?_, rfl, ?_, ?_⟩
  · constructor
    · intro h
      by_contra hne
      exact hprev p (by omega) h
    · intro h
      simp [prev_link, h]
  · constructor
    · intro h
      by_contra hne
      exact hnext p (by omega) h
    · intro h
      simp [next_link, h]
  · constructor
    · intro h
      by_contra hne
      exact hmprev p (by omega) h
    · intro h
      simp [m_relPrev, h]
  · constructor
    · intro h
      by_contra hne
      exact hmnext p (by omega) h
    · intro h
      simp [m_relNext, h]
  · intro hgt
    rw [prev_link, if_pos hgt]
  · intro hgt
    rw [prevURL, if_neg (by omega)]
  · intro hlt
    rw [next_link, if_pos hlt]

/-- Witness for C6 at the one-page catalog (`p = T = 1`): both links
absent. -/
theorem c6_nav_links_witness :
    (prev_link 1 = [] ↔ 1 = 1)
    ∧ (next_link 1 1 = [] ↔ 1 = 1)
    ∧ (m_relPrev 1 = [] ↔ 1 = 1)
    ∧ (m_relNext 1 1 = [] ↔ 1 = 1)
    ∧ (1 < 1 → prev_link 1
        = "<link rel=\"prev\" href=\"".data ++ prevURL 1 ++ "\">".data)
    ∧ prevURL 2 = "/".data
    ∧ (2 < 1 → prevURL 1 = pagePath (1 - 1))
    ∧ (1 < 1 → next_link 1 1
        = "<link rel=\"next\" href=\"".data ++ pagePath (1 + 1) ++ "\">".data) :=
  c6_nav_links 1 1 (by decide) (by decide)

/-- C7 counterexample: `makeindex.py` on an empty scan is not fatal — it
writes no listing pages but still writes `sitemap.xml` and exits normally,
so "exits non-zero and writes no output files" fails. -/
theorem c7_counterexample :
    makeindex_main (fun s => s) (fun _ => []) (fun _ => []) [] []
      = (["html/sitemap.xml".data], [])
    ∧ (["html/sitemap.xml".data] : List Str) ≠ [] := by
  constructor
  · simp [makeindex_main, m_catalog, m_scan, m_sitemap_urls, ceilDiv, M_PER_PAGE]
  · decide

/-- C7 amended: zero episodes is fatal only in `build_indexes.py` (a
`SystemExit` before anything is written, and the scan is empty exactly when
the directory has no documents); `makeindex.py` instead completes normally,
writing no listing page but an (empty) sitemap. -/
theorem c7_amended (parseTs : Str → Option Int) (u : Str → Str)
    (fd : Int → Str) (iso : Int → Str) (today : Str)
    (files : List SrcFile) (mfiles : List MFile)
    (hb : load_episodes parseTs files = [])
    (hm : m_scan u fd mfiles = []) :
    build_main parseTs files = Except.error "No episodes found".data
    ∧ makeindex_main u fd iso today mfiles = (["html/sitemap.xml".data], [])
    ∧ (load_episodes parseTs files = [] ↔ files = []) := by
  refine ⟨by simp [build_main, hb], ?_, ?_⟩
  · have hnone : ∀ f ∈ mfiles, m_processFile u fd f = none := by
      intro f hf
      exact List.filterMap_eq_nil.mp hm f hf
    have hurls : mfiles.filterMap (fun f =>
        (m_processFile u fd f).map
          (fun ep => (m_epLoc ep.slug, iso ep.published))) = [] := by
      apply List.filterMap_eq_nil.mpr
      intro f hf
      rw [hnone f hf]
      rfl
    simp [makeindex_main, m_catalog, hm, m_sitemap_urls, hurls, ceilDiv, M_PER_PAGE]
  · have hlen : (load_episodes parseTs files).length = files.length := by
      simp [load_episodes, catalogOf]
    constructor
    · intro h
      have h0 : (load_episodes parseTs files).length = 0 := by rw [h]; rfl
      rw [hlen] at h0
      exact List.length_eq_zero.mp h0
    · intro h
      subst h
      simp [load_episodes, catalogOf]

/-- Witness for C7 (amended) at the empty scans. -/
theorem c7_amended_witness :
    build_main (fun _ => none) [] = Except.error "No episodes found".data
    ∧ makeindex_main (fun s => s) (fun _ => []) (fun _ => []) [] []
        = (["html/sitemap.xml".data], [])
    ∧ (load_episodes (fun _ => none) [] = [] ↔ ([] : List SrcFile) = []) :=
  c7_amended (fun _ => none) (fun s => s) (fun _ => []) (fun _ => []) [] [] []
    (by simp [load_episodes, catalogOf]) rfl

/-- C8 counterexample: in `makeindex.py` an empty document has no `h1`
marker, so the scan skips it and no record enters the catalog — extraction
is not "never fails, always yields a record". -/
theorem c8_counterexample :
    m_processFile (fun s => s) (fun _ => []) ⟨"x.html".data, [], 0⟩ = none
    ∧ m_catalog (fun s => s) (fun _ => []) [⟨"x.html".data, [], 0⟩] = [] := by
  constructor
  · decide
  · have h : m_scan (fun s => s) (fun _ => [])
        [⟨"x.html".data, [], 0⟩] = [] := by decide
    simp [m_catalog, h]

/-- C8 amended: in `build_indexes.py` extraction never fails and every
scanned document yields a record in the catalog, with the empty document
producing the full-fallback record (title `"Episode"`, empty description
and raw date, timestamp 0, access tier public); in `makeindex.py` a
document whose `h1` title is absent (or empty) is skipped and yields no
record. -/
theorem c8_amended (parseTs : Str → Option Int) (files : List SrcFile)
    (hp : parseTs [] = none) :
    (load_episodes parseTs files).length = files.length
    ∧ extract_meta parseTs [] = ⟨"Episode".data, [], 0, [], []⟩
    ∧ (∀ f : SrcFile, f.content = [] →
        mkEpisode parseTs f
          = ⟨"Episode".data, [], 0, [], [], '/' :: f.stem, "public".data⟩)
    ∧ ∀ (u : Str → Str) (fd : Int → Str) (f : MFile),
        extract_h1_title u f.content = none → m_processFile u fd f = none := by
  have hmeta : extract_meta parseTs [] = ⟨"Episode".data, [], 0, [], []⟩ := by
    have ht : searchTitle [] = none := rfl
    have hd : searchDate [] = none := rfl
    have hds : searchDesc [] = none := rfl
    have he : searchEpnum [] = none := rfl
    simp [extract_meta, ht, hd, hds, he, replaceZ, hp]
  refine ⟨by simp [load_episodes, catalogOf], hmeta, ?_, ?_⟩
  · intro f hf
    have hpm : hasPatreonMarker [] = false := rfl
    simp [mkEpisode, hf, hmeta, hpm]
  · intro u fd f hnone
    simp [m_processFile, hnone]

/-- Witness for C8 at the failing parse oracle and a one-document scan. -/
theorem c8_amended_witness :
    (load_episodes (fun _ => none) [⟨"a".data, []⟩]).length
      = ([⟨"a".data, []⟩] : List SrcFile).length
    ∧ extract_meta (fun _ => none) [] = ⟨"Episode".data, [], 0, [], []⟩
    ∧ (∀ f : SrcFile, f.content = [] →
        mkEpisode (fun _ => none) f
          = ⟨"Episode".data, [], 0, [], [], '/' :: f.stem, "public".data⟩)
    ∧ ∀ (u : Str → Str) (fd : Int → Str) (f : MFile),
        extract_h1_title u f.content = none →
        m_processFile u fd f = none :=
  c8_amended (fun _ => none) [⟨"a".data, []⟩] rfl

/-- C10: `makeindex.py` skips every file named `index.html`, so under the
`*.html` glob contract no catalog record can have slug `index`; a
previously generated page-1 listing is never re-ingested as an episode. -/
theorem c10_no_index_slug (u : Str → Str) (fd : Int → Str) (files : List MFile)
    (hnames : ∀ f ∈ files, f.name.drop (f.name.length - 5) = ".html".data) :
    ∀ ep ∈ m_catalog u fd files, ep.slug ≠ "index".data := by
  intro ep hep hslug
  rw [m_catalog, List.mem_mergeSort, m_scan, List.mem_filterMap] at hep
  obtain ⟨f, hf, hpf⟩ := hep
  by_cases hidx : f.name = "index.html".data
  · simp [m_processFile, hidx] at hpf
  · rw [m_processFile, if_neg hidx] at hpf
    cases hh : extract_h1_title u f.content with
    | none => rw [hh] at hpf; simp at hpf
    | some title =>
      rw [hh] at hpf
      by_cases hemp : title.isEmpty
      · simp [hemp] at hpf
      · simp only [hemp, Bool.false_eq_true, if_false, Option.some.injEq] at hpf
        have hslug2 : htmlStem f.name = "index".data := by
          rw [show htmlStem f.name = ep.slug from by rw [← hpf], hslug]
        have hname : f.name = "index.html".data := by
          have hsplit := List.take_append_drop (f.name.length - 5) f.name
          rw [hnames f hf] at hsplit
          rw [htmlStem] at hslug2
          rw [← hsplit, hslug2]
          rfl
        exact hidx hname

/-- Witness for C10 on a concrete scan containing `index.html` and one
episode document: the single surviving record's slug is not `index`. -/
theorem c10_no_index_slug_witness :
    (⟨"a".data, "T".data, none, 0, []⟩ : MEpisode).slug ≠ "index".data :=
  c10_no_index_slug (fun s => s) (fun _ => [])
    [⟨"index.html".data, "<h1>T</h1>".data, 0⟩,
     ⟨"a.html".data, "<h1>T</h1>".data, 0⟩]
    (by decide)
    ⟨"a".data, "T".data, none, 0, []⟩
    (by
      have hs : m_scan (fun s => s) (fun _ => [])
          [⟨"index.html".data, "<h1>T</h1>".data, 0⟩,
           ⟨"a.html".data, "<h1>T</h1>".data, 0⟩]
          = [⟨"a".data, "T".data, none, 0, []⟩] := by decide
      rw [m_catalog, hs]
      simp)

/-- C3 counterexample: for a one-episode, one-page catalog the sitemap of
`build_indexes.py` holds 3 entries, not `1 + (totalPages - 1) + episodeCount
= 2` — `write_sitemap` adds an extra `/newest/` entry. -/
theorem c3_counterexample :
    (write_sitemap_locs [⟨[], [], 0, [], [], "/a".data, "public".data⟩] 1).length = 3
    ∧ (write_sitemap_locs [⟨[], [], 0, [], [], "/a".data, "public".data⟩] 1).length
        ≠ 1 + (1 - 1) + 1
    ∧ newestLoc ∈ write_sitemap_locs [⟨[], [], 0, [], [], "/a".data, "public".data⟩] 1 := by
  refine ⟨by decide, by decide, by decide⟩

/-- C3 amended: for every catalog and total page count (slugs being
nonempty, slash-free and distinct, as the directory scan guarantees), the
sitemap of `build_indexes.py` contains exactly
`1 (home) + (totalPages - 1) + episodeCount + 1 (/newest/)` entries with no
two sharing a `<loc>`; the sitemap of `makeindex.py` contains exactly
`1 + (totalPages - 1) + episodeCount` entries, also with no duplicate
`<loc>`. -/
theorem c3_amended (eps : List EpisodeB) (T : Nat)
    (u : Str → Str) (fd : Int → Str) (iso : Int → Str) (today : Str)
    (mfiles : List MFile)
    (hT : 1 ≤ T)
    (hurl : ∀ e ∈ eps, ∃ s : Str, e.url = '/' :: s ∧ s ≠ [] ∧ '/' ∉ s)
    (hnd : (eps.map (fun e => e.url)).Nodup)
    (hmT : 1 ≤ ceilDiv (m_catalog u fd mfiles).length M_PER_PAGE)
    (hnames : ∀ f ∈ mfiles, f.name.drop (f.name.length - 5) = ".html".data)
    (hmnd : (mfiles.map (fun f => f.name)).Nodup) :
    (write_sitemap_locs eps T).Nodup
    ∧ (write_sitemap_locs eps T).length = 1 + (T - 1) + eps.length + 1
    ∧ (m_sitemap_urls u fd iso today mfiles).length
        = 1 + (ceilDiv (m_catalog u fd mfiles).length M_PER_PAGE - 1)
          + (m_catalog u fd mfiles).length
    ∧ ((m_sitemap_urls u fd iso today mfiles).map Prod.fst).Nodup := by
  refine ⟨foldl_insertLoc_nodup _ [] List.nodup_nil, ?_, ?_,
    m_locs_nodup u fd iso today mfiles hnames hmnd⟩
  · rw [write_sitemap_locs,
      foldl_insertLoc_length _ [] (sitemapInput_nodup eps T hurl hnd) (by simp)]
    rw [sitemapInput]
    simp [List.length_append]
    omega
  · rw [m_sitemap_urls, List.length_append, List.length_map, List.length_range']
    rw [length_filterMap_mapOpt]
    have hc : (m_catalog u fd mfiles).length
        = (mfiles.filterMap (m_processFile u fd)).length := by
      simp [m_catalog, m_scan]
    omega

/-- Witness for C3 (amended) at a one-episode catalog (both variants). -/
theorem c3_amended_witness :
    (write_sitemap_locs [⟨[], [], 0, [], [], "/a".data, "public".data⟩] 1).Nodup
    ∧ (write_sitemap_locs [⟨[], [], 0, [], [], "/a".data, "public".data⟩] 1).length
        = 1 + (1 - 1)
          + ([⟨[], [], 0, [], [], "/a".data, "public".data⟩] : List EpisodeB).length + 1
    ∧ (m_sitemap_urls (fun s => s) (fun _ => []) (fun _ => []) []
        [⟨"a.html".data, "<h1>T</h1>".data, 0⟩]).length
        = 1 + (ceilDiv (m_catalog (fun s => s) (fun _ => [])
              [⟨"a.html".data, "<h1>T</h1>".data, 0⟩]).length M_PER_PAGE - 1)
          + (m_catalog (fun s => s) (fun _ => [])
              [⟨"a.html".data, "<h1>T</h1>".data, 0⟩]).length
    ∧ ((m_sitemap_urls (fun s => s) (fun _ => []) (fun _ => []) []
        [⟨"a.html".data, "<h1>T</h1>".data, 0⟩]).map Prod.fst).Nodup :=
  c3_amended [⟨[], [], 0, [], [], "/a".data, "public".data⟩] 1
    (fun s => s) (fun _ => []) (fun _ => []) []
    [⟨"a.html".data, "<h1>T</h1>".data, 0⟩]
    (by decide)
    (by
      intro e he
      simp only [List.mem_singleton] at he
      subst he
      exact ⟨"a".data, rfl, by decide, by decide⟩)
    (by decide)
    (by
      have hs : m_scan (fun s => s) (fun _ => [])
          [⟨"a.html".data, "<h1>T</h1>".data, 0⟩]
          = [⟨"a".data, "T".data, none, 0, []⟩] := by decide
      rw [m_catalog, hs]
      simp [M_PER_PAGE, ceilDiv])
    (by decide) (by decide)

theorem rfindGo_none_spec (p : Char → Bool) :
    ∀ t : Str, rfindGo p t = none →
      ∀ j (hj : j < t.length), ¬ p (t.get ⟨j, hj⟩) := by
  intro t
  induction t with
  | nil => intro _ j hj; simp at hj
  | cons c rest ih =>
    intro h j hj
    rw [rfindGo] at h
    cases hr : rfindGo p rest with
    | some jj => rw [hr] at h; simp at h
    | none =>
      rw [hr] at h
      by_cases hc : p c
      · rw [if_pos hc] at h; simp at h
      · rw [if_neg hc] at h
        cases j with
        | zero => simpa using hc
        | succ k =>
          have hk : k < rest.length := by simp at hj; omega
          have hx := ih hr k hk
          simpa using hx

theorem rfindGo_some_spec (p : Char → Bool) :
    ∀ (t : Str) (i : Nat), rfindGo p t = some i →
      ∃ h : i < t.length, p (t.get ⟨i, h⟩)
        ∧ ∀ j (hj : j < t.length), i < j → ¬ p (t.get ⟨j, hj⟩) := by
  intro t
  induction t with
  | nil => intro i h; simp [rfindGo] at h
  | cons c rest ih =>
    intro i h
    rw [rfindGo] at h
    cases hr : rfindGo p rest with
    | some j =>
      rw [hr] at h
      simp at h
      subst h
      obtain ⟨hj, hpj, hmax⟩ := ih j hr
      refine ⟨by simp; omega, by simpa using hpj, ?_⟩
      intro j' hj' hgt
      cases j' with
      | zero => omega
      | succ k =>
        have hk : k < rest.length := by simp at hj'; omega
        have hx := hmax k hk (by omega)
        simpa using hx
    | none =>
      rw [hr] at h
      by_cases hc : p c
      · rw [if_pos hc] at h
        simp at h
        subst h
        refine ⟨by simp, by simpa using hc, ?_⟩
        intro j' hj' hgt
        cases j' with
        | zero => omega
        | succ k =>
          have hk : k < rest.length := by simp at hj'; omega
          have hx := rfindGo_none_spec p rest hr k hk
          simpa using hx
      · rw [if_neg hc] at h
        simp at h

theorem rfindGo_eq_some_of (p : Char → Bool) (t : Str) (i : Nat)
    (hi : i < t.length) (hp : p (t.get ⟨i, hi⟩))
    (hmax : ∀ j (hj : j < t.length), i < j → ¬ p (t.get ⟨j, hj⟩)) :
    rfindGo p t = some i := by
  cases h : rfindGo p t with
  | none => exact absurd hp (rfindGo_none_spec p t h i hi)
  | some j =>
    obtain ⟨hj, hpj, hmax'⟩ := rfindGo_some_spec p t j h
    rcases lt_trichotomy i j with hlt | heq | hgt
    · exact absurd hpj (hmax j hj hlt)
    · rw [heq]
    · exact absurd hp (hmax' i hi hgt)

/-- C9 counterexample: a description of 100 `a`s, a period, and 250 `b`s
(351 characters after normalization) has its last sentence boundary before
the limit at index 100, yet the code hard-truncates with an ellipsis because
the boundary does not lie beyond position 140. -/
theorem c9_counterexample :
    extract_description (fun s => s)
      ("<meta name=\"description\" content=\"".data
        ++ (List.replicate 100 'a' ++ '.' :: List.replicate 250 'b') ++ "\">".data)
      = some ((List.replicate 100 'a' ++ '.' :: List.replicate 199 'b') ++ "…".data)
    ∧ extract_description (fun s => s)
      ("<meta name=\"description\" content=\"".data
        ++ (List.replicate 100 'a' ++ '.' :: List.replicate 250 'b') ++ "\">".data)
      ≠ some (List.replicate 100 'a' ++ ['.']) := by
  have h1 : extract_description (fun s => s)
      ("<meta name=\"description\" content=\"".data
        ++ (List.replicate 100 'a' ++ '.' :: List.replicate 250 'b') ++ "\">".data)
      = some ((List.replicate 100 'a' ++ '.' :: List.replicate 199 'b') ++ "…".data) := by
    set_option maxRecDepth 200000 in decide
  refine ⟨h1, ?_⟩
  rw [h1]
  intro h
  have h2 := Option.some.inj h
  have h3 : ((List.replicate 100 'a' ++ '.' :: List.replicate 199 'b') ++ "…".data)
      ≠ (List.replicate 100 'a' ++ ['.']) := by decide
  exact h3 h2

/-- C9 amended: for every document with a description marker, the extracted
description is the first match, unescaped, tag-stripped, with whitespace
runs collapsed and then trimmed; when it exceeds the 300-character limit it
is cut at the last sentence boundary (`.`) before the limit provided that
boundary lies beyond position 140, and otherwise (no boundary, or one at
position 140 or earlier) it is hard-truncated to 300 characters,
right-trimmed, with an ellipsis appended. -/
theorem c9_amended (u : Str → Str) (text g n : Str)
    (hsearch : searchMetaDesc text = some g)
    (hn : n = pyStrip (wsCollapse (tagSub (u g)))) :
    (n.length ≤ MAX_LEN → extract_description u text = some n)
    ∧ (∀ i (hi : i < n.length), MAX_LEN < n.length → i < MAX_LEN → 140 < i →
        n.get ⟨i, hi⟩ = '.' →
        (∀ j (hj : j < n.length), i < j → j < MAX_LEN → n.get ⟨j, hj⟩ ≠ '.') →
        extract_description u text = some (n.take (i + 1)))
    ∧ (MAX_LEN < n.length →
        (∀ i (hi : i < n.length), 140 < i → i < MAX_LEN → n.get ⟨i, hi⟩ ≠ '.') →
        extract_description u text = some (pyRStrip (n.take MAX_LEN) ++ "…".data)) := by
  have hbase : extract_description u text = some (truncateDesc n) := by
    rw [extract_description, hsearch, hn]
  refine ⟨?_, ?_, ?_⟩
  · intro hle
    rw [hbase, truncateDesc, if_neg (by omega)]
  · intro i hi hlong hi300 hi140 hdot hmaxdot
    have hfind : rfindIn '.' n MAX_LEN = some i := by
      rw [rfindIn]
      have hi' : i < (n.take MAX_LEN).length := by
        rw [List.length_take]
        omega
      apply rfindGo_eq_some_of _ _ i hi'
      · simp only [decide_eq_true_eq, List.get_eq_getElem, List.getElem_take]
        exact hdot
      · intro j hj hgt
        have hj' : j < n.length ∧ j < MAX_LEN := by
          rw [List.length_take] at hj
          omega
        have hx := hmaxdot j hj'.1 hgt hj'.2
        simp only [decide_eq_true_eq, List.get_eq_getElem, List.getElem_take]
        exact hx
    rw [hbase, truncateDesc, if_pos (by omega), hfind]
    simp [hi140]
  · intro hlong hnodot
    cases hf : rfindIn '.' n MAX_LEN with
    | none =>
      rw [hbase, truncateDesc, if_pos (by omega), hf]
    | some cut =>
      obtain ⟨hcl, hpc, _⟩ := rfindGo_some_spec _ _ cut hf
      have hcut : cut < n.length ∧ cut < MAX_LEN := by
        rw [List.length_take] at hcl
        omega
      have hdotcut : n.get ⟨cut, hcut.1⟩ = '.' := by
        have hx := hpc
        simp [List.getElem_take] at hx
        simpa using hx
      have hc140 : ¬ 140 < cut := fun hgt =>
        hnodot cut hcut.1 hgt hcut.2 hdotcut
      rw [hbase, truncateDesc, if_pos (by omega), hf]
      simp [hc140]

/-- Witness for C9 (amended) at a short concrete description. -/
theorem c9_amended_witness :
    ("hello world".data.length ≤ MAX_LEN →
      extract_description (fun s => s)
        "<meta name=\"description\" content=\"hello world\">".data
        = some "hello world".data)
    ∧ (∀ i (hi : i < "hello world".data.length),
        MAX_LEN < "hello world".data.length → i < MAX_LEN → 140 < i →
        "hello world".data.get ⟨i, hi⟩ = '.' →
        (∀ j (hj : j < "hello world".data.length), i < j → j < MAX_LEN →
          "hello world".data.get ⟨j, hj⟩ ≠ '.') →
        extract_description (fun s => s)
          "<meta name=\"description\" content=\"hello world\">".data
          = some ("hello world".data.take (i + 1)))
    ∧ (MAX_LEN < "hello world".data.length →
        (∀ i (hi : i < "hello world".data.length), 140 < i → i < MAX_LEN →
          "hello world".data.get ⟨i, hi⟩ ≠ '.') →
        extract_description (fun s => s)
          "<meta name=\"description\" content=\"hello world\">".data
          = some (pyRStrip ("hello world".data.take MAX_LEN) ++ "…".data)) :=
  c9_amended (fun s => s)
    "<meta name=\"description\" content=\"hello world\">".data
    "hello world".data "hello world".data (by decide) (by decide)

end Strategists
